import Mathlib

/-!
Verification development for the browser-worker repository: a Cloudflare Worker
that converts HTML to PDF, either for a single document or for a batch of
documents partitioned round-robin over a capped number of browser sessions.

The definitions below are a shallow embedding of the staggered/retry revision
of the worker (the revision containing `launchBrowserWithRetry` and the
sequential 22000 ms staggered `processBatch`), which is a superset of the
parallel revision: the result assembly, validation and partitioning code is
identical in both revisions, only the caps (2 vs 3) differ, so those are kept
as parameters.  External effects (puppeteer launches, page renders, page and
browser closes, wall-clock durations) are supplied by an environment oracle;
time is modelled by an explicit natural-number clock that each operation and
each `sleep` advances.
-/

/-- A JavaScript primitive value, as far as the worker inspects request
fields: booleans, numbers, strings and null; an absent property is an
`Option.none` around this type. -/
inductive JsVal where
  | vBool : Bool → JsVal
  | vNum : Int → JsVal
  | vStr : String → JsVal
  | vNull : JsVal
deriving DecidableEq

/-- JavaScript truthiness of a primitive value. -/
def jsTruthy : JsVal → Bool
  | .vBool b => b
  | .vNum n => decide (n ≠ 0)
  | .vStr s => decide (s ≠ "")
  | .vNull => false

/-- The `options` object of a request or batch item:
`{format?, printBackground?, margin?}`, every field optional. -/
structure RenderOptions where
  format : Option JsVal
  printBackground : Option JsVal
  margin : Option JsVal
deriving DecidableEq

/-- One entry of the `batch` array: `{id, html, options?}`.  `id` and `html`
are `Option String` so that an absent property can be distinguished from an
empty string (both are falsy in the validation code). -/
structure BatchItem where
  id : Option String
  html : Option String
  options : Option RenderOptions
deriving DecidableEq

/-- JavaScript falsiness of a string-valued property: `!x` is true when the
property is absent (undefined) or the empty string. -/
def strFalsy : Option String → Bool
  | none => true
  | some s => decide (s = "")

/-- The result of `item.options?.margin || {top: "1cm", ...}`: either the
caller-supplied (truthy) margin value or the literal default object. -/
inductive MarginVal where
  | given : JsVal → MarginVal
  | defaultMargin : MarginVal
deriving DecidableEq

/-- The options object actually passed to `page.pdf`. -/
structure PdfOptions where
  format : JsVal
  printBackground : Bool
  margin : MarginVal
deriving DecidableEq

/-- Optional chaining `o?.f` for an optional options object. -/
def optField (o : Option RenderOptions) (f : RenderOptions → Option JsVal) : Option JsVal :=
  match o with
  | none => none
  | some r => f r

/-- JavaScript `x || d` for an optional field: the field if present and
truthy, otherwise the default. -/
def jsOrVal (v : Option JsVal) (d : JsVal) : JsVal :=
  match v with
  | none => d
  | some x => if jsTruthy x then x else d

/-- `item.options?.margin || {top: "1cm", right: "1cm", bottom: "1cm", left: "1cm"}`. -/
def marginOr (v : Option JsVal) : MarginVal :=
  match v with
  | none => .defaultMargin
  | some x => if jsTruthy x then .given x else .defaultMargin

/-- The `pdfOptions` object built for `page.pdf` both in single mode and per
batch item:
`{format: options?.format || "A4", printBackground: options?.printBackground !== false, margin: options?.margin || default}`.
In single mode the code first replaces an absent `options` by `{}`
(`options = requestBody.options || {}`); reading a field of `{}` yields
`undefined`, which is exactly `optField none`, so the same function models
both call sites. -/
def pdfOptionsOf (o : Option RenderOptions) : PdfOptions :=
  { format := jsOrVal (optField o (fun r => r.format)) (.vStr "A4")
  , printBackground :=
      match optField o (fun r => r.printBackground) with
      | some (.vBool false) => false
      | _ => true
  , margin := marginOr (optField o (fun r => r.margin)) }

/-- One entry of the batch response `results` array:
`{id, success, pdf?}` on success, `{id, success, error?}` on failure. -/
structure JobResult where
  id : Option String
  success : Bool
  pdf : Option String
  error : Option String
deriving DecidableEq

/-- A validation error thrown by `processBatch` before any session work:
`Batch item missing html property: ...` or `Batch item missing id property: ...`,
carrying the offending item (the code interpolates `JSON.stringify(item)`). -/
inductive VErr where
  | missingHtml : BatchItem → VErr
  | missingId : BatchItem → VErr
deriving DecidableEq

/-- The validation loop at the top of `processBatch`: for each item in order,
throw if `!item.html`, then throw if `!item.id`. -/
def validateBatch : List BatchItem → Option VErr
  | [] => none
  | it :: rest =>
    if strFalsy it.html then some (.missingHtml it)
    else if strFalsy it.id then some (.missingId it)
    else validateBatch rest

/-! ### The round-robin partitioner

`const chunks = Array.from({length: maxConcurrency}, () => []);`
`batch.forEach((item, index) => { chunks[index % maxConcurrency].push(item); });`
`const nonEmptyChunks = chunks.filter(chunk => chunk.length > 0);`
-/

/-- `chunks[k].push(a)`: replace group `k` by itself with `a` appended. -/
def pushAt {α : Type} (acc : List (List α)) (k : ℕ) (a : α) : List (List α) :=
  acc.set k (acc.getD k [] ++ [a])

/-- The `forEach` loop of the partitioner, started at position `i`. -/
def distributeFrom {α : Type} (n : ℕ) : List (List α) → ℕ → List α → List (List α)
  | acc, _, [] => acc
  | acc, i, a :: rest => distributeFrom n (pushAt acc (i % n) a) (i + 1) rest

/-- The full partitioner: `n` empty groups, then push item `i` into group
`i % n`. -/
def distribute {α : Type} (jobs : List α) (n : ℕ) : List (List α) :=
  distributeFrom n (List.replicate n []) 0 jobs

/-- `chunks.filter(chunk => chunk.length > 0)`. -/
def nonEmptyChunks {α : Type} (jobs : List α) (n : ℕ) : List (List α) :=
  (distribute jobs n).filter (fun c => decide (0 < c.length))

/-- The list of a list's elements paired with their positions, starting the
position count at `i` (used to state what the round-robin loop does). -/
def idxFrom {α : Type} (i : ℕ) : List α → List (ℕ × α)
  | [] => []
  | a :: rest => (i, a) :: idxFrom (i + 1) rest

/-! ### The session acquirer: `launchBrowserWithRetry(env, maxRetries = 3, initialDelay = 1000)`

The for-loop body attempts `puppeteer.launch`.  On an error whose message
contains `429` or `Rate limit`, if attempts remain it sleeps
`initialDelay * 2 ** (attempt - 1)` and continues; otherwise the loop falls
through and, only when `attempt === maxRetries`, throws a wrapping error
`Failed to launch browser after N attempts: msg`.  Note the loop body does
NOT throw an early-attempt non-rate-limit error: control simply falls out of
the catch block and the next iteration retries immediately.
-/

/-- Substring test on character lists (JavaScript `String.includes`). -/
def isPrefixOfChars : List Char → List Char → Bool
  | [], _ => true
  | _ :: _, [] => false
  | a :: as, b :: bs => a == b && isPrefixOfChars as bs

/-- Helper for `jsIncludes`: does `sub` occur contiguously in the list? -/
def subIncl (sub : List Char) : List Char → Bool
  | [] => isPrefixOfChars sub []
  | c :: t => isPrefixOfChars sub (c :: t) || subIncl sub t

/-- JavaScript `s.includes(sub)` for the non-empty literals the code uses. -/
def jsIncludes (s sub : String) : Bool := subIncl sub.data s.data

/-- `error.message?.includes("429") || error.message?.includes("Rate limit")`. -/
def isRateLimitMsg (m : String) : Bool := jsIncludes m "429" || jsIncludes m "Rate limit"

/-- What `launchBrowserWithRetry` can throw: the wrapping error
`Failed to launch browser after (attempts) attempts: (last message)`, or the
final `throw lastError` after the loop (unreachable when `maxRetries >= 1`;
`rawUndefined` is `throw undefined` when the loop body never ran). -/
inductive LaunchErr where
  | wrapped : ℕ → String → LaunchErr
  | raw : String → LaunchErr
  | rawUndefined : LaunchErr
deriving DecidableEq

/-- `throw lastError` at the end of the loop. -/
def rawOf : Option String → LaunchErr
  | some m => .raw m
  | none => .rawUndefined

/-- The retry loop of `launchBrowserWithRetry`.  `att a` is the outcome of the
`puppeteer.launch` call on attempt `a` (1-based): `none` for success, `some msg`
for a throw with message `msg`.  `fuel` is the number of loop iterations still
allowed (`maxRetries + 1 - attempt`); when it reaches 0 the loop exits and
`lastError` is thrown.  The first component of the result is the list of
back-off sleep durations executed, in order; the second is the loop's outcome
(`Except.ok a` meaning the launch of attempt `a` was returned). -/
def launchGo (att : ℕ → Option String) (maxRetries initialDelay : ℕ) :
    ℕ → ℕ → Option String → List ℕ × Except LaunchErr ℕ
  | 0, _, lastErr => ([], .error (rawOf lastErr))
  | fuel + 1, attempt, _ =>
    match att attempt with
    | none => ([], .ok attempt)
    | some msg =>
      if isRateLimitMsg msg then
        if attempt < maxRetries then
          let d := initialDelay * 2 ^ (attempt - 1)
          let rest := launchGo att maxRetries initialDelay fuel (attempt + 1) (some msg)
          (d :: rest.1, rest.2)
        else ([], .error (.wrapped maxRetries msg))
      else
        if attempt = maxRetries then ([], .error (.wrapped maxRetries msg))
        else launchGo att maxRetries initialDelay fuel (attempt + 1) (some msg)

/-- `launchBrowserWithRetry`: run the loop from attempt 1 with `lastError`
undefined. -/
def launchBrowserWithRetry (att : ℕ → Option String) (maxRetries initialDelay : ℕ) :
    List ℕ × Except LaunchErr ℕ :=
  launchGo att maxRetries initialDelay maxRetries 1 none

/-! ### The batch executor (staggered revision of `processBatch`) -/

/-- The environment oracle: outcomes and wall-clock durations of every
external operation.  `attempts k a` is the outcome of launch attempt `a` for
chunk `k`; `renderStage k j o` is the outcome of
`newPage` + `setContent` + `page.pdf(o)` (already base64-encoded on success)
for item `j` of chunk `k`; `pageClose k j` is the outcome of the `page.close()`
that follows a successful render.  The `...Dur` fields are durations in ms;
`singleAttempts` / `singleRender` serve the single-document mode. -/
structure Env where
  attempts : ℕ → ℕ → Option String
  launchDur : ℕ → ℕ
  renderStage : ℕ → ℕ → PdfOptions → Except String String
  pageClose : ℕ → ℕ → Except String Unit
  renderDur : ℕ → ℕ → ℕ
  closeDur : ℕ → ℕ
  singleAttempts : ℕ → Option String
  singleRender : PdfOptions → Except String String

/-- The results pushed for one item of a chunk, in push order.  The per-item
`try` block pushes the success result and then awaits `page.close()`; if that
close throws, the `catch` pushes a second, failed result for the same item.
A render failure pushes exactly one failed result carrying the message. -/
def itemBlock (env : Env) (k j : ℕ) (it : BatchItem) : List JobResult :=
  match env.renderStage k j (pdfOptionsOf it.options) with
  | .error m => [{ id := it.id, success := false, pdf := none, error := some m }]
  | .ok p =>
    { id := it.id, success := true, pdf := some p, error := none } ::
      (match env.pageClose k j with
       | .error m2 => [{ id := it.id, success := false, pdf := none, error := some m2 }]
       | .ok _ => [])

/-- The per-item blocks of a chunk, one per item, item `j` counted from the
given start index. -/
def runItemsB (env : Env) (k : ℕ) : List BatchItem → ℕ → List (List JobResult)
  | [], _ => []
  | it :: rest, j => itemBlock env k j it :: runItemsB env k rest (j + 1)

/-- The sequential item loop of one chunk: the `chunkResults` array together
with the clock after the loop (each item advances the clock by
`renderDur k j`). -/
def runItems (env : Env) (k : ℕ) : List BatchItem → ℕ → ℕ → List JobResult × ℕ
  | [], _, t => ([], t)
  | it :: rest, j, t =>
    let blk := itemBlock env k j it
    let next := runItems env k rest (j + 1) (t + env.renderDur k j)
    (blk ++ next.1, next.2)

/-- Execution record of one chunk: the sleep executed before its launch (0 for
the first chunk, 22000 for every later one), the times at which
`launchBrowserWithRetry` was entered and returned, whether it succeeded, the
chunk's pushed results, how many times `browser.close()` ran for it, and the
time the chunk's processing (including the close) finished. -/
structure ChunkLog where
  delayBefore : ℕ
  launchStart : ℕ
  launchEnd : ℕ
  ok : Bool
  results : List JobResult
  closeCount : ℕ
  endT : ℕ
deriving DecidableEq

/-- Default `ChunkLog` used with `List.getD`. -/
def dLog : ChunkLog :=
  { delayBefore := 0, launchStart := 0, launchEnd := 0, ok := false
  , results := [], closeCount := 0, endT := 0 }

/-- Default `BatchItem` used with `List.getD`. -/
def dItem : BatchItem := { id := none, html := none, options := none }

/-- The sequential chunk loop of the staggered `processBatch`: for each chunk
`k` (index within `nonEmptyChunks`), sleep 22000 ms when `k > 0`, launch with
retry, process the chunk's items sequentially, and close the browser in the
`finally` (skipped when the launch itself threw, since `browser` is then
undefined).  A launch failure propagates: the remaining chunks are not
processed.  Returns the per-chunk logs, the final clock, and either the
concatenated results or the propagated launch error. -/
def runChunks (env : Env) : List (List BatchItem) → ℕ → ℕ →
    List ChunkLog × ℕ × Except LaunchErr (List JobResult)
  | [], _, t => ([], t, .ok [])
  | c :: rest, k, t =>
    let d := if 0 < k then 22000 else 0
    let t1 := t + d
    let launch := launchBrowserWithRetry (env.attempts k) 3 1000
    let t2 := t1 + env.launchDur k
    match launch.2 with
    | .error e =>
      ([{ delayBefore := d, launchStart := t1, launchEnd := t2, ok := false
        , results := [], closeCount := 0, endT := t2 }], t2, .error e)
    | .ok _ =>
      let items := runItems env k c 0 t2
      let t3 := items.2 + env.closeDur k
      let log : ChunkLog :=
        { delayBefore := d, launchStart := t1, launchEnd := t2, ok := true
        , results := items.1, closeCount := 1, endT := t3 }
      let next := runChunks env rest (k + 1) t3
      (log :: next.1, next.2.1, (next.2.2).map (fun rs => items.1 ++ rs))

/-- The JSON object `{results, total, successful, failed}` returned by
`processBatch`. -/
structure BatchOut where
  results : List JobResult
  total : ℕ
  successful : ℕ
  failed : ℕ
deriving DecidableEq

/-- An error that makes the whole `processBatch` call throw. -/
inductive JsError where
  | validation : VErr → JsError
  | launch : LaunchErr → JsError
deriving DecidableEq

/-- `processBatch(batch, concurrency, env)` of the staggered revision (`cap`
is the hard concurrency ceiling, 2 in that revision, 3 in the parallel one):
validate every item, cap the concurrency with `Math.min`, distribute
round-robin, drop empty chunks, run the chunks sequentially with the stagger
delay, and assemble `{results, total: results.length, successful, failed}`.
Returns the chunk logs (empty when validation failed, i.e. no session
creation was attempted) alongside the response or the thrown error. -/
def processBatchT (env : Env) (batch : List BatchItem) (conc cap : ℕ) :
    List ChunkLog × Except JsError BatchOut :=
  match validateBatch batch with
  | some e => ([], .error (.validation e))
  | none =>
    let maxC := min conc cap
    let groups := nonEmptyChunks batch maxC
    let run := runChunks env groups 0 0
    match run.2.2 with
    | .error e => (run.1, .error (.launch e))
    | .ok rs =>
      (run.1, .ok { results := rs
                  , total := rs.length
                  , successful := (rs.filter (fun r => r.success)).length
                  , failed := (rs.filter (fun r => !r.success)).length })

/-- The non-empty chunks a batch call works with. -/
def groupsOf (batch : List BatchItem) (conc cap : ℕ) : List (List BatchItem) :=
  nonEmptyChunks batch (min conc cap)

/-- The `k`-th chunk log of a batch call. -/
def logAt (env : Env) (batch : List BatchItem) (conc cap k : ℕ) : ChunkLog :=
  (processBatchT env batch conc cap).1.getD k dLog

/-- All launches needed for the first `n` chunks succeed (within the retry
budget) under the given environment. -/
def launchesOk (env : Env) (n : ℕ) : Prop :=
  ∀ k, k < n → (launchBrowserWithRetry (env.attempts k) 3 1000).2.isOk = true

/-- No `page.close()` of the batch ever throws. -/
def pageClosesOk (env : Env) : Prop :=
  ∀ k j, (env.pageClose k j).isOk = true

/-- The concatenation of all chunk results, chunk `k0` first. -/
def resultsCat (env : Env) : List (List BatchItem) → ℕ → List JobResult
  | [], _ => []
  | c :: rest, k => (runItems env k c 0 0).1 ++ resultsCat env rest (k + 1)

/-! ### The request dispatch in `fetch` (POST / or /pdf, after body parsing) -/

/-- The parsed `requestBody.batch` property: absent, null, some non-array
value, or an array of batch items. -/
inductive BatchField where
  | absent : BatchField
  | null : BatchField
  | nonArr : JsVal → BatchField
  | arr : List BatchItem → BatchField
deriving DecidableEq

/-- JavaScript truthiness of the `batch` property (arrays are always truthy). -/
def batchTruthy : BatchField → Bool
  | .absent => false
  | .null => false
  | .nonArr v => jsTruthy v
  | .arr _ => true

/-- `Array.isArray(requestBody.batch)`. -/
def batchIsArray : BatchField → Bool
  | .arr _ => true
  | _ => false

/-- The parsed JSON request body, restricted to the properties the dispatch
reads.  `concurrency` is the requested concurrency when the caller supplied a
number (`none` when absent). -/
structure ReqBody where
  batch : BatchField
  concurrency : Option ℕ
  html : Option String
  options : Option RenderOptions
deriving DecidableEq

/-- `requestBody.concurrency || d`: JavaScript `||` falls back to the default
when the property is absent or `0` (both falsy). -/
def concOr (c : Option ℕ) (d : ℕ) : ℕ :=
  match c with
  | none => d
  | some n => if n = 0 then d else n

/-- An error message payload of a 500 response produced by the `fetch`
handler's catch block. -/
inductive FetchErr where
  | fromBatch : JsError → FetchErr
  | noHtml : FetchErr
  | singleLaunch : LaunchErr → FetchErr
  | singleRender : String → FetchErr
deriving DecidableEq

/-- What a POST to / or /pdf returns: a PDF body (single mode), the batch
JSON (batch mode), or a 500 error JSON. -/
inductive FetchOut where
  | pdf : String → FetchOut
  | batchRes : BatchOut → FetchOut
  | errResp : FetchErr → FetchOut
deriving DecidableEq

/-- The single-document path: `if (!html) throw`; launch with retry; one
`newPage` + `setContent` + `page.pdf(options)` (whose options object is built
from `requestBody.options || {}` exactly as per item, see `pdfOptionsOf`);
close; return the PDF bytes.  Any throw is turned into a 500 by the catch. -/
def runSingle (env : Env) (body : ReqBody) : FetchOut :=
  if strFalsy body.html then .errResp .noHtml
  else
    match (launchBrowserWithRetry env.singleAttempts 3 1000).2 with
    | .error e => .errResp (.singleLaunch e)
    | .ok _ =>
      match env.singleRender (pdfOptionsOf body.options) with
      | .error m => .errResp (.singleRender m)
      | .ok bytes => .pdf bytes

/-- The mode dispatch of `fetch` for a parsed JSON body:
`if (requestBody.batch && Array.isArray(requestBody.batch))` run
`processBatch(requestBody.batch, requestBody.concurrency || defC, env)`,
otherwise run the single-document path.  `defC` is the default concurrency
(2 in the staggered revision, 3 in the parallel one) and `cap` the hard cap
inside `processBatch`. -/
def handlePost (env : Env) (body : ReqBody) (defC cap : ℕ) : FetchOut :=
  match body.batch, batchTruthy body.batch && batchIsArray body.batch with
  | .arr items, true =>
    match (processBatchT env items (concOr body.concurrency defC) cap).2 with
    | .error e => .errResp (.fromBatch e)
    | .ok r => .batchRes r
  | _, _ => runSingle env body

/-! ### Concrete fixtures for witnesses and counterexamples -/

/-- An environment where every launch succeeds at the first attempt, every
render succeeds with body `"PDF"`, no close ever throws and every operation
takes zero time. -/
def envTriv : Env :=
  { attempts := fun _ _ => none
  , launchDur := fun _ => 0
  , renderStage := fun _ _ _ => .ok "PDF"
  , pageClose := fun _ _ => .ok ()
  , renderDur := fun _ _ => 0
  , closeDur := fun _ => 0
  , singleAttempts := fun _ => none
  , singleRender := fun _ => .ok "PDF" }

/-- Like `envTriv` but the second item of the first chunk fails to render. -/
def envOneBad : Env :=
  { envTriv with
    renderStage := fun k j _ =>
      if k = 0 && j = 1 then .error "render boom" else .ok "PDF" }

/-- A valid 2-item batch with distinct ids. -/
def batchTwo : List BatchItem :=
  [ { id := some "1", html := some "<p>a</p>", options := none }
  , { id := some "2", html := some "<p>b</p>", options := none } ]

/-- A valid 3-item batch with distinct ids (one group when concurrency is 1). -/
def batchThree : List BatchItem :=
  [ { id := some "1", html := some "<p>a</p>", options := none }
  , { id := some "2", html := some "<p>b</p>", options := none }
  , { id := some "3", html := some "<p>c</p>", options := none } ]

/-- A batch whose only item has an empty `html`. -/
def badBatch : List BatchItem :=
  [ { id := some "1", html := some "", options := none } ]

/-- A batch with two items sharing the id `"a"`. -/
def dupBatch : List BatchItem :=
  [ { id := some "a", html := some "<p>x</p>", options := none }
  , { id := some "a", html := some "<p>y</p>", options := none } ]

/-- A request body whose `batch` property is the empty array while `html` is
also supplied. -/
def bodyEmptyBatch : ReqBody :=
  { batch := .arr [], concurrency := none, html := some "<p>x</p>", options := none }

/-- A request body with no `batch` property at all. -/
def bodySingle : ReqBody :=
  { batch := .absent, concurrency := none, html := some "<p>x</p>", options := none }

/-- Launch outcomes that fail with a non-rate-limit error on attempt 1 and
succeed on attempt 2. -/
def attOneBoom : ℕ → Option String :=
  fun a => if a = 1 then some "Connection refused" else none

/-- Launch outcomes that fail rate-limited on attempts 1 and 2 and succeed on
attempt 3. -/
def attTwoRL : ℕ → Option String :=
  fun a => if a = 1 then some "Rate limit hit" else if a = 2 then some "error 429" else none

/-- Whether an `Except` is a success. -/
def exceptOk {ε α : Type} : Except ε α → Bool
  | .ok _ => true
  | .error _ => false

deriving instance DecidableEq for Except

/-! ### Lemmas about the partitioner -/

theorem length_pushAt {α : Type} (acc : List (List α)) (k : ℕ) (a : α) :
    (pushAt acc k a).length = acc.length := by
  simp [pushAt]

theorem length_distributeFrom {α : Type} (n : ℕ) (l : List α) :
    ∀ (acc : List (List α)) (i : ℕ), (distributeFrom n acc i l).length = acc.length := by
  induction l with
  | nil => intro acc i; rfl
  | cons a rest ih =>
    intro acc i
    simp only [distributeFrom]
    rw [ih, length_pushAt]

theorem distribute_length {α : Type} (jobs : List α) (n : ℕ) :
    (distribute jobs n).length = n := by
  rw [distribute, length_distributeFrom]
  simp

theorem getD_set_list {α : Type} :
    ∀ (l : List (List α)) (i k : ℕ) (g : List α), i < l.length →
      (l.set i g).getD k [] = if i = k then g else l.getD k [] := by
  intro l
  induction l with
  | nil => intro i k g h; simp at h
  | cons c cs ih =>
    intro i k g h
    cases i with
    | zero =>
      cases k with
      | zero => simp
      | succ k' => simp
    | succ i' =>
      cases k with
      | zero => simp
      | succ k' =>
        simp only [List.set, List.getD_cons_succ]
        rw [ih i' k' g (by simpa using h)]
        by_cases h' : i' = k' <;> simp [h']

theorem getD_replicate_nil {α : Type} :
    ∀ (n k : ℕ), (List.replicate n ([] : List α)).getD k [] = [] := by
  intro n
  induction n with
  | zero => intro k; simp [List.replicate]
  | succ m ih =>
    intro k
    cases k with
    | zero => simp [List.replicate]
    | succ k' => simp only [List.replicate, List.getD_cons_succ]; exact ih k'

theorem distributeFrom_getD {α : Type} (n : ℕ) (hn : 0 < n) (l : List α) :
    ∀ (acc : List (List α)) (i : ℕ), acc.length = n →
      ∀ k, k < n →
        (distributeFrom n acc i l).getD k []
          = acc.getD k [] ++ ((idxFrom i l).filter (fun p => decide (p.1 % n = k))).map Prod.snd := by
  induction l with
  | nil => intro acc i hacc k hk; simp [distributeFrom, idxFrom]
  | cons a rest ih =>
    intro acc i hacc k hk
    simp only [distributeFrom, idxFrom, List.filter_cons]
    rw [ih (pushAt acc (i % n) a) (i + 1) (by rw [length_pushAt]; exact hacc) k hk]
    have hset : (pushAt acc (i % n) a).getD k []
        = if i % n = k then acc.getD k [] ++ [a] else acc.getD k [] := by
      rw [pushAt, getD_set_list acc (i % n) k _ (by rw [hacc]; exact Nat.mod_lt i hn)]
      by_cases h : i % n = k
      · simp [h]
      · simp [h]
    rw [hset]
    by_cases h : i % n = k
    · simp [h]
    · simp [h]

theorem distribute_getD {α : Type} (jobs : List α) (n : ℕ) (hn : 0 < n)
    (k : ℕ) (hk : k < n) :
    (distribute jobs n).getD k []
      = ((idxFrom 0 jobs).filter (fun p => decide (p.1 % n = k))).map Prod.snd := by
  rw [distribute, distributeFrom_getD n hn jobs _ 0 (by simp) k hk, getD_replicate_nil]
  simp

theorem idxFrom_append {α : Type} (a : α) :
    ∀ (l : List α) (i : ℕ), idxFrom i (l ++ [a]) = idxFrom i l ++ [(i + l.length, a)] := by
  intro l
  induction l with
  | nil => intro i; simp [idxFrom]
  | cons b rest ih =>
    intro i
    have e : (i + 1) + rest.length = i + (rest.length + 1) := by omega
    show (i, b) :: idxFrom (i + 1) (rest ++ [a])
        = ((i, b) :: idxFrom (i + 1) rest) ++ [(i + (b :: rest).length, a)]
    rw [ih (i + 1), List.length_cons, List.cons_append, e]

theorem nat_succ_div_mod (n L : ℕ) (hn : 0 < n) :
    ((L + 1) / n = L / n + (if L % n = n - 1 then 1 else 0))
      ∧ ((L + 1) % n = if L % n = n - 1 then 0 else L % n + 1) := by
  have hd := Nat.div_add_mod L n
  have hr : L % n < n := Nat.mod_lt L hn
  by_cases h : L % n = n - 1
  · have hm : n * (L / n + 1) = n * (L / n) + n := by ring
    have e : L + 1 = n * (L / n + 1) := by omega
    have hdiv : (L + 1) / n = L / n + 1 := by rw [e]; exact Nat.mul_div_cancel_left _ hn
    have hmod : (L + 1) % n = 0 := by rw [e]; exact Nat.mul_mod_right n _
    rw [hdiv, hmod]
    simp [h]
  · have hr1 : L % n + 1 < n := by omega
    have e : L + 1 = (L % n + 1) + n * (L / n) := by omega
    have hdiv : (L + 1) / n = L / n := by
      rw [e, Nat.add_mul_div_left _ _ hn, Nat.div_eq_of_lt hr1, Nat.zero_add]
    have hmod : (L + 1) % n = L % n + 1 := by
      rw [e, Nat.add_mul_mod_self_left, Nat.mod_eq_of_lt hr1]
    rw [hdiv, hmod]
    simp [h]

theorem grpLen {α : Type} (n k : ℕ) (hn : 0 < n) (hk : k < n) :
    ∀ l : List α,
      (((idxFrom 0 l).filter (fun p => decide (p.1 % n = k))).map Prod.snd).length
        = l.length / n + (if k < l.length % n then 1 else 0) := by
  intro l
  induction l using List.reverseRecOn with
  | nil => simp [idxFrom]
  | append_singleton xs a ih =>
    have hidx := idxFrom_append a xs 0
    rw [hidx, List.filter_append, List.map_append, List.length_append, ih]
    have hlen : (xs ++ [a]).length = xs.length + 1 := by simp
    rw [hlen]
    obtain ⟨hdiv, hmod⟩ := nat_succ_div_mod n xs.length hn
    rw [hdiv, hmod]
    have hr : xs.length % n < n := Nat.mod_lt _ hn
    have hsing :
        ((List.filter (fun p => decide (p.1 % n = k)) [((0 : ℕ) + xs.length, a)]).map
            Prod.snd).length
          = if xs.length % n = k then 1 else 0 := by
      by_cases h : xs.length % n = k
      · simp [List.filter_cons, h]
      · simp [List.filter_cons, h]
    rw [hsing]
    split_ifs <;> omega

theorem ceil_div_eq (n L : ℕ) (hn : 0 < n) :
    (L + n - 1) / n = L / n + (if 0 < L % n then 1 else 0) := by
  have hd := Nat.div_add_mod L n
  have hr : L % n < n := Nat.mod_lt L hn
  by_cases h : L % n = 0
  · have e : L + n - 1 = (n - 1) + n * (L / n) := by omega
    rw [e, Nat.add_mul_div_left _ _ hn, Nat.div_eq_of_lt (by omega)]
    simp [h]
  · have hm : n * (L / n + 1) = n * (L / n) + n := by ring
    have e : L + n - 1 = (L % n - 1) + n * (L / n + 1) := by omega
    rw [e, Nat.add_mul_div_left _ _ hn, Nat.div_eq_of_lt (by omega : L % n - 1 < n)]
    have hpos : 0 < L % n := Nat.pos_of_ne_zero h
    simp [hpos]

theorem distribute_group_length {α : Type} (jobs : List α) (n : ℕ) (hn : 0 < n)
    (k : ℕ) (hk : k < n) :
    ((distribute jobs n).getD k []).length
      = jobs.length / n + (if k < jobs.length % n then 1 else 0) := by
  rw [distribute_getD jobs n hn k hk, grpLen n k hn hk]

theorem mem_distribute_iff {α : Type} (jobs : List α) (n : ℕ) (c : List α) :
    c ∈ distribute jobs n ↔ ∃ k, k < n ∧ (distribute jobs n).getD k [] = c := by
  constructor
  · intro hc
    obtain ⟨i, hi, he⟩ := List.mem_iff_getElem.mp hc
    refine ⟨i, ?_, ?_⟩
    · rw [← distribute_length jobs n]; exact hi
    · rw [List.getD_eq_getElem _ _ hi]; exact he
  · rintro ⟨k, hk, he⟩
    have hk' : k < (distribute jobs n).length := by rw [distribute_length]; exact hk
    rw [← he, List.getD_eq_getElem _ _ hk']
    exact List.getElem_mem hk'

/-! ### The partition is a permutation of the batch -/

theorem flatten_filter_nonempty {α : Type} :
    ∀ l : List (List α), (l.filter (fun c => decide (0 < c.length))).flatten = l.flatten := by
  intro l
  induction l with
  | nil => rfl
  | cons c cs ih =>
    by_cases h : 0 < c.length
    · simp [List.filter_cons, h, ih]
    · have hc : c = [] := by
        cases c with
        | nil => rfl
        | cons x xs => simp at h
      simp [List.filter_cons, h, hc, ih]

theorem flatten_pushAt_perm {α : Type} (a : α) :
    ∀ (acc : List (List α)) (m : ℕ), m < acc.length →
      List.Perm (pushAt acc m a).flatten (acc.flatten ++ [a]) := by
  intro acc
  induction acc with
  | nil => intro m h; simp at h
  | cons g gs ih =>
    intro m h
    cases m with
    | zero =>
      show ((g ++ [a]) :: gs).flatten.Perm ((g :: gs).flatten ++ [a])
      simp only [List.flatten_cons]
      have e1 : (g ++ [a]) ++ gs.flatten = g ++ (a :: gs.flatten) := by
        rw [List.append_assoc]; rfl
      have e2 : (g ++ gs.flatten) ++ [a] = g ++ (gs.flatten ++ [a]) := by
        rw [List.append_assoc]
      rw [e1, e2]
      exact List.Perm.append_left g (List.perm_append_singleton a gs.flatten).symm
    | succ m' =>
      show (g :: pushAt gs m' a).flatten.Perm ((g :: gs).flatten ++ [a])
      simp only [List.flatten_cons]
      have e2 : (g ++ gs.flatten) ++ [a] = g ++ (gs.flatten ++ [a]) := by
        rw [List.append_assoc]
      rw [e2]
      exact List.Perm.append_left g (ih m' (by simpa using h))

theorem distributeFrom_flatten_perm {α : Type} (n : ℕ) (hn : 0 < n) :
    ∀ (l : List α) (acc : List (List α)) (i : ℕ), acc.length = n →
      List.Perm (distributeFrom n acc i l).flatten (acc.flatten ++ l) := by
  intro l
  induction l with
  | nil => intro acc i h; simp [distributeFrom]
  | cons a rest ih =>
    intro acc i h
    simp only [distributeFrom]
    have h1 := ih (pushAt acc (i % n) a) (i + 1) (by rw [length_pushAt]; exact h)
    have h2 := flatten_pushAt_perm a acc (i % n) (by rw [h]; exact Nat.mod_lt i hn)
    have h3 := h2.append_right rest
    have e : (acc.flatten ++ [a]) ++ rest = acc.flatten ++ (a :: rest) := by
      rw [List.append_assoc]; rfl
    rw [← e]
    exact h1.trans h3

theorem flatten_replicate_nil {α : Type} :
    ∀ n : ℕ, (List.replicate n ([] : List α)).flatten = [] := by
  intro n
  induction n with
  | zero => rfl
  | succ m ih => simp [List.replicate, ih]

theorem distribute_flatten_perm {α : Type} (jobs : List α) (n : ℕ) (hn : 0 < n) :
    List.Perm (distribute jobs n).flatten jobs := by
  have h := distributeFrom_flatten_perm n hn jobs (List.replicate n []) 0 (by simp)
  rw [distribute]
  simpa [flatten_replicate_nil] using h

theorem nonEmptyChunks_flatten_perm {α : Type} (jobs : List α) (n : ℕ) (hn : 0 < n) :
    List.Perm (nonEmptyChunks jobs n).flatten jobs := by
  rw [nonEmptyChunks, flatten_filter_nonempty]
  exact distribute_flatten_perm jobs n hn

theorem length_filter_partition {α : Type} (p : α → Bool) :
    ∀ l : List α, (l.filter p).length + (l.filter (fun x => !p x)).length = l.length := by
  intro l
  induction l with
  | nil => rfl
  | cons a as ih =>
    by_cases h : p a
    · simp [List.filter_cons, h]; omega
    · have hb : p a = false := by simpa using h
      simp [List.filter_cons, hb]; omega

/-! ### Lemmas about the chunk executor -/

theorem except_ok_exists {ε α : Type} (e : Except ε α) (h : e.isOk = true) :
    ∃ a, e = .ok a := by
  cases e with
  | ok a => exact ⟨a, rfl⟩
  | error x => simp [Except.isOk, Except.toBool] at h

theorem itemBlock_clean (env : Env) (hcl : pageClosesOk env) (k j : ℕ) (it : BatchItem) :
    itemBlock env k j it
      = [match env.renderStage k j (pdfOptionsOf it.options) with
         | .ok p => { id := it.id, success := true, pdf := some p, error := none }
         | .error m => { id := it.id, success := false, pdf := none, error := some m }] := by
  unfold itemBlock
  cases hrs : env.renderStage k j (pdfOptionsOf it.options) with
  | error m => rfl
  | ok p =>
    have hc := hcl k j
    cases hpc : env.pageClose k j with
    | error m2 => rw [hpc] at hc; simp [Except.isOk, Except.toBool] at hc
    | ok u => simp

theorem runItems_fst_time (env : Env) (k : ℕ) :
    ∀ (c : List BatchItem) (j t t' : ℕ),
      (runItems env k c j t).1 = (runItems env k c j t').1 := by
  intro c
  induction c with
  | nil => intros; rfl
  | cons it rest ih =>
    intro j t t'
    simp only [runItems]
    rw [ih (j + 1) (t + env.renderDur k j) (t' + env.renderDur k j)]

theorem runItems_eq_blocks (env : Env) (k : ℕ) :
    ∀ (c : List BatchItem) (j t : ℕ),
      (runItems env k c j t).1 = (runItemsB env k c j).flatten := by
  intro c
  induction c with
  | nil => intros; rfl
  | cons it rest ih =>
    intro j t
    simp only [runItems, runItemsB, List.flatten_cons]
    rw [ih (j + 1) (t + env.renderDur k j)]

theorem runItems_time_le (env : Env) (k : ℕ) :
    ∀ (c : List BatchItem) (j t : ℕ), t ≤ (runItems env k c j t).2 := by
  intro c
  induction c with
  | nil => intro j t; exact Nat.le_refl t
  | cons it rest ih =>
    intro j t
    simp only [runItems]
    exact Nat.le_trans (Nat.le_add_right t (env.renderDur k j)) (ih (j + 1) _)

theorem runItems_clean (env : Env) (hcl : pageClosesOk env) (k : ℕ) :
    ∀ (c : List BatchItem) (j t : ℕ),
      (runItems env k c j t).1.map (fun r => r.id) = c.map (fun it => it.id)
        ∧ (runItems env k c j t).1.length = c.length := by
  intro c
  induction c with
  | nil => intros; exact ⟨rfl, rfl⟩
  | cons it rest ih =>
    intro j t
    obtain ⟨h1, h2⟩ := ih (j + 1) (t + env.renderDur k j)
    simp only [runItems, List.map_append, List.length_append, List.map_cons, List.length_cons]
    rw [itemBlock_clean env hcl]
    constructor
    · cases env.renderStage k j (pdfOptionsOf it.options) <;> simp [h1]
    · cases env.renderStage k j (pdfOptionsOf it.options) <;> simp [h2] <;> omega

theorem runItemsB_getD (env : Env) (k : ℕ) :
    ∀ (c : List BatchItem) (j0 i : ℕ), i < c.length →
      (runItemsB env k c j0).getD i [] = itemBlock env k (j0 + i) (c.getD i dItem) := by
  intro c
  induction c with
  | nil => intro j0 i h; simp at h
  | cons it rest ih =>
    intro j0 i h
    cases i with
    | zero => simp [runItemsB]
    | succ i' =>
      simp only [runItemsB, List.getD_cons_succ]
      rw [ih (j0 + 1) i' (by simpa using h)]
      have e : j0 + 1 + i' = j0 + (i' + 1) := by omega
      rw [e]

theorem runItemsB_length (env : Env) (k : ℕ) :
    ∀ (c : List BatchItem) (j0 : ℕ), (runItemsB env k c j0).length = c.length := by
  intro c
  induction c with
  | nil => intro j0; rfl
  | cons it rest ih => intro j0; simp [runItemsB, ih]

theorem launches_shift (env : Env) (k : ℕ) (m : ℕ)
    (hok : ∀ i, i < m + 1 → (launchBrowserWithRetry (env.attempts (k + i)) 3 1000).2.isOk = true) :
    ∀ i, i < m → (launchBrowserWithRetry (env.attempts ((k + 1) + i)) 3 1000).2.isOk = true := by
  intro i hi
  have h := hok (i + 1) (by omega)
  have e : k + (i + 1) = (k + 1) + i := by omega
  rw [e] at h
  exact h

theorem runChunks_length_ok (env : Env) :
    ∀ (cs : List (List BatchItem)) (k t : ℕ),
      (∀ i, i < cs.length → (launchBrowserWithRetry (env.attempts (k + i)) 3 1000).2.isOk = true) →
      (runChunks env cs k t).1.length = cs.length := by
  intro cs
  induction cs with
  | nil => intros; rfl
  | cons c rest ih =>
    intro k t hok
    have hok0 := hok 0 (by simp)
    rw [Nat.add_zero] at hok0
    obtain ⟨a, ha⟩ := except_ok_exists _ hok0
    have hok' := launches_shift env k rest.length (by simpa using hok)
    simp only [runChunks, ha, List.length_cons]
    exact congrArg (fun x => x + 1) (ih (k + 1) _ hok')

theorem runChunks_results_ok (env : Env) :
    ∀ (cs : List (List BatchItem)) (k t : ℕ),
      (∀ i, i < cs.length → (launchBrowserWithRetry (env.attempts (k + i)) 3 1000).2.isOk = true) →
      (runChunks env cs k t).2.2 = .ok (resultsCat env cs k) := by
  intro cs
  induction cs with
  | nil => intros; rfl
  | cons c rest ih =>
    intro k t hok
    have hok0 := hok 0 (by simp)
    rw [Nat.add_zero] at hok0
    obtain ⟨a, ha⟩ := except_ok_exists _ hok0
    have hok' := launches_shift env k rest.length (by simpa using hok)
    simp only [runChunks, ha]
    rw [ih (k + 1) _ hok']
    simp only [Except.map, resultsCat]
    rw [runItems_fst_time env k c 0 _ 0]

theorem runChunks_log_ok (env : Env) :
    ∀ (cs : List (List BatchItem)) (k t : ℕ),
      (∀ i, i < cs.length → (launchBrowserWithRetry (env.attempts (k + i)) 3 1000).2.isOk = true) →
      ∀ i, i < cs.length →
        ((runChunks env cs k t).1.getD i dLog).ok = true
        ∧ ((runChunks env cs k t).1.getD i dLog).closeCount = 1
        ∧ ((runChunks env cs k t).1.getD i dLog).results
            = (runItems env (k + i) (cs.getD i []) 0 0).1
        ∧ ((runChunks env cs k t).1.getD i dLog).delayBefore
            = (if 0 < k + i then 22000 else 0)
        ∧ ((runChunks env cs k t).1.getD i dLog).launchStart
            ≤ ((runChunks env cs k t).1.getD i dLog).launchEnd
        ∧ ((runChunks env cs k t).1.getD i dLog).launchEnd
            ≤ ((runChunks env cs k t).1.getD i dLog).endT := by
  intro cs
  induction cs with
  | nil => intro k t hok i hi; simp at hi
  | cons c rest ih =>
    intro k t hok i hi
    have hok0 := hok 0 (by simp)
    rw [Nat.add_zero] at hok0
    obtain ⟨a, ha⟩ := except_ok_exists _ hok0
    have hok' := launches_shift env k rest.length (by simpa using hok)
    cases i with
    | zero =>
      refine ⟨?_, ?_, ?_, ?_, ?_, ?_⟩
      · simp only [runChunks, ha, List.getD_cons_zero]
      · simp only [runChunks, ha, List.getD_cons_zero]
      · simp only [runChunks, ha, List.getD_cons_zero, Nat.add_zero]
        rw [runItems_fst_time env k c 0 _ 0]
      · simp only [runChunks, ha, List.getD_cons_zero, Nat.add_zero]
      · simp only [runChunks, ha, List.getD_cons_zero]
        exact Nat.le_add_right _ _
      · simp only [runChunks, ha, List.getD_cons_zero]
        exact Nat.le_trans (runItems_time_le env k c 0 _) (Nat.le_add_right _ _)
    | succ i' =>
      have hi' : i' < rest.length := by simpa using hi
      have h := ih (k + 1) ((runItems env k c 0 (t + (if 0 < k then 22000 else 0) + env.launchDur k)).2 + env.closeDur k) hok' i' hi'
      have e : (k + 1) + i' = k + (i' + 1) := by omega
      rw [e] at h
      simpa only [runChunks, ha, List.getD_cons_succ] using h

theorem runChunks_head_start (env : Env) (cs : List (List BatchItem)) (k t : ℕ)
    (hok : ∀ i, i < cs.length → (launchBrowserWithRetry (env.attempts (k + i)) 3 1000).2.isOk = true)
    (hne : 0 < cs.length) :
    ((runChunks env cs k t).1.getD 0 dLog).launchStart = t + (if 0 < k then 22000 else 0) := by
  cases cs with
  | nil => simp at hne
  | cons c rest =>
    have hok0 := hok 0 (by simp)
    rw [Nat.add_zero] at hok0
    obtain ⟨a, ha⟩ := except_ok_exists _ hok0
    simp only [runChunks, ha, List.getD_cons_zero]

theorem runChunks_consec (env : Env) :
    ∀ (cs : List (List BatchItem)) (k t : ℕ),
      (∀ i, i < cs.length → (launchBrowserWithRetry (env.attempts (k + i)) 3 1000).2.isOk = true) →
      ∀ i, i + 1 < cs.length →
        ((runChunks env cs k t).1.getD (i + 1) dLog).launchStart
          = ((runChunks env cs k t).1.getD i dLog).endT + 22000 := by
  intro cs
  induction cs with
  | nil => intro k t hok i hi; simp at hi
  | cons c rest ih =>
    intro k t hok i hi
    have hok0 := hok 0 (by simp)
    rw [Nat.add_zero] at hok0
    obtain ⟨a, ha⟩ := except_ok_exists _ hok0
    have hok' := launches_shift env k rest.length (by simpa using hok)
    cases i with
    | zero =>
      have hne : 0 < rest.length := by simpa using hi
      simp only [runChunks, ha, List.getD_cons_succ, List.getD_cons_zero]
      rw [runChunks_head_start env rest (k + 1) _ hok' hne]
      simp
    | succ i' =>
      have hi' : i' + 1 < rest.length := by simpa using hi
      have h := ih (k + 1) ((runItems env k c 0 (t + (if 0 < k then 22000 else 0) + env.launchDur k)).2 + env.closeDur k) hok' i' hi'
      simpa only [runChunks, ha, List.getD_cons_succ] using h

/-! ### Validation and per-item lemmas -/

theorem validateBatch_none_iff :
    ∀ batch : List BatchItem,
      validateBatch batch = none
        ↔ ∀ it ∈ batch, strFalsy it.html = false ∧ strFalsy it.id = false := by
  intro batch
  induction batch with
  | nil => simp [validateBatch]
  | cons it rest ih =>
    constructor
    · intro h
      by_cases hh : strFalsy it.html
      · simp [validateBatch, hh] at h
      · by_cases hid : strFalsy it.id
        · simp [validateBatch, hh, hid] at h
        · intro x hx
          rcases List.mem_cons.mp hx with he | hm
          · subst he
            exact ⟨by simpa using hh, by simpa using hid⟩
          · have hrest : validateBatch rest = none := by
              simpa [validateBatch, hh, hid] using h
            exact (ih.mp hrest) x hm
    · intro h
      have h0 := h it (List.mem_cons_self it rest)
      have hrest : validateBatch rest = none :=
        ih.mpr (fun x hx => h x (List.mem_cons_of_mem it hx))
      simp [validateBatch, h0.1, h0.2, hrest]

theorem validateBatch_some_spec :
    ∀ (batch : List BatchItem) (e : VErr), validateBatch batch = some e →
      ∃ it ∈ batch, ((e = .missingHtml it ∧ strFalsy it.html = true)
          ∨ (e = .missingId it ∧ strFalsy it.id = true)) := by
  intro batch
  induction batch with
  | nil => intro e h; simp [validateBatch] at h
  | cons it rest ih =>
    intro e h
    by_cases hh : strFalsy it.html
    · have he : e = .missingHtml it := by
        simp [validateBatch, hh] at h
        exact h.symm
      exact ⟨it, List.mem_cons_self it rest, Or.inl ⟨he, hh⟩⟩
    · by_cases hid : strFalsy it.id
      · have he : e = .missingId it := by
          simp [validateBatch, hh, hid] at h
          exact h.symm
        exact ⟨it, List.mem_cons_self it rest, Or.inr ⟨he, hid⟩⟩
      · have hrest : validateBatch rest = some e := by
          simpa [validateBatch, hh, hid] using h
        obtain ⟨x, hx, hor⟩ := ih e hrest
        exact ⟨x, List.mem_cons_of_mem it hx, hor⟩

theorem itemBlock_ne_nil (env : Env) (k j : ℕ) (it : BatchItem) :
    itemBlock env k j it ≠ [] := by
  unfold itemBlock
  cases env.renderStage k j (pdfOptionsOf it.options) <;> simp

theorem itemBlock_error (env : Env) (k j : ℕ) (it : BatchItem) (m : String)
    (h : env.renderStage k j (pdfOptionsOf it.options) = .error m) :
    itemBlock env k j it = [{ id := it.id, success := false, pdf := none, error := some m }] := by
  unfold itemBlock
  rw [h]

theorem itemBlock_cong (env env' : Env)
    (hre : env.renderStage = env'.renderStage) (hpc : env.pageClose = env'.pageClose)
    (k j : ℕ) (it : BatchItem) : itemBlock env k j it = itemBlock env' k j it := by
  unfold itemBlock
  rw [hre, hpc]

theorem runItems_cong (env env' : Env)
    (hre : env.renderStage = env'.renderStage) (hpc : env.pageClose = env'.pageClose) (k : ℕ) :
    ∀ (c : List BatchItem) (j t t' : ℕ),
      (runItems env k c j t).1 = (runItems env' k c j t').1 := by
  intro c
  induction c with
  | nil => intros; rfl
  | cons it rest ih =>
    intro j t t'
    simp only [runItems]
    rw [itemBlock_cong env env' hre hpc, ih (j + 1) (t + env.renderDur k j) (t' + env'.renderDur k j)]

theorem resultsCat_cong (env env' : Env)
    (hre : env.renderStage = env'.renderStage) (hpc : env.pageClose = env'.pageClose) :
    ∀ (cs : List (List BatchItem)) (k : ℕ), resultsCat env cs k = resultsCat env' cs k := by
  intro cs
  induction cs with
  | nil => intro k; rfl
  | cons c rest ih =>
    intro k
    simp only [resultsCat]
    rw [runItems_cong env env' hre hpc k c 0 0 0, ih (k + 1)]

theorem resultsCat_clean (env : Env) (hcl : pageClosesOk env) :
    ∀ (cs : List (List BatchItem)) (k : ℕ),
      (resultsCat env cs k).map (fun r => r.id) = cs.flatten.map (fun it => it.id)
        ∧ (resultsCat env cs k).length = cs.flatten.length := by
  intro cs
  induction cs with
  | nil => intro k; exact ⟨rfl, rfl⟩
  | cons c rest ih =>
    intro k
    obtain ⟨h1, h2⟩ := runItems_clean env hcl k c 0 0
    obtain ⟨h3, h4⟩ := ih (k + 1)
    constructor
    · simp only [resultsCat, List.flatten_cons, List.map_append, h1, h3]
    · simp only [resultsCat, List.flatten_cons, List.length_append, h2, h4]

/-! ### Top-level batch lemmas -/

theorem processBatchT_logs (env : Env) (batch : List BatchItem) (conc cap : ℕ)
    (hv : validateBatch batch = none) :
    (processBatchT env batch conc cap).1
      = (runChunks env (groupsOf batch conc cap) 0 0).1 := by
  cases hrun : (runChunks env (nonEmptyChunks batch (min conc cap)) 0 0).2.2 with
  | error e => simp [processBatchT, hv, hrun, groupsOf]
  | ok rs => simp [processBatchT, hv, hrun, groupsOf]

theorem processBatchT_ok_spec (env : Env) (batch : List BatchItem) (conc cap : ℕ)
    (hc : 0 < conc) (hcap : 0 < cap)
    (hv : validateBatch batch = none)
    (hcl : pageClosesOk env)
    (hl : launchesOk env (groupsOf batch conc cap).length) :
    ∃ r, (processBatchT env batch conc cap).2 = .ok r
      ∧ r.results.length = batch.length
      ∧ r.results.map (fun jr => jr.id)
          = ((groupsOf batch conc cap).flatten).map (fun it => it.id)
      ∧ List.Perm (r.results.map (fun jr => jr.id)) (batch.map (fun it => it.id))
      ∧ r.total = batch.length
      ∧ r.successful + r.failed = r.total := by
  have hmin : 0 < min conc cap := by omega
  have hok0 : ∀ i, i < (nonEmptyChunks batch (min conc cap)).length →
      (launchBrowserWithRetry (env.attempts (0 + i)) 3 1000).2.isOk = true := by
    intro i hi
    rw [Nat.zero_add]
    exact hl i hi
  have hres := runChunks_results_ok env (nonEmptyChunks batch (min conc cap)) 0 0 hok0
  have hperm : List.Perm (nonEmptyChunks batch (min conc cap)).flatten batch :=
    nonEmptyChunks_flatten_perm batch (min conc cap) hmin
  obtain ⟨hids, hlen⟩ := resultsCat_clean env hcl (nonEmptyChunks batch (min conc cap)) 0
  refine ⟨{ results := resultsCat env (nonEmptyChunks batch (min conc cap)) 0
          , total := (resultsCat env (nonEmptyChunks batch (min conc cap)) 0).length
          , successful := ((resultsCat env (nonEmptyChunks batch (min conc cap)) 0).filter
              (fun r => r.success)).length
          , failed := ((resultsCat env (nonEmptyChunks batch (min conc cap)) 0).filter
              (fun r => !r.success)).length }, ?_, ?_, ?_, ?_, ?_, ?_⟩
  · simp only [processBatchT, hv, hres]
  · show (resultsCat env (nonEmptyChunks batch (min conc cap)) 0).length = batch.length
    rw [hlen, hperm.length_eq]
  · show (resultsCat env (nonEmptyChunks batch (min conc cap)) 0).map (fun jr => jr.id)
        = ((groupsOf batch conc cap).flatten).map (fun it => it.id)
    exact hids
  · show List.Perm
        ((resultsCat env (nonEmptyChunks batch (min conc cap)) 0).map (fun jr => jr.id))
        (batch.map (fun it => it.id))
    rw [hids]
    exact hperm.map (fun it => it.id)
  · show (resultsCat env (nonEmptyChunks batch (min conc cap)) 0).length = batch.length
    rw [hlen, hperm.length_eq]
  · show ((resultsCat env (nonEmptyChunks batch (min conc cap)) 0).filter
          (fun r => r.success)).length
        + ((resultsCat env (nonEmptyChunks batch (min conc cap)) 0).filter
          (fun r => !r.success)).length
        = (resultsCat env (nonEmptyChunks batch (min conc cap)) 0).length
    exact length_filter_partition _ _

/-! ### Claim theorems -/

/-- C1: for every valid batch processed in batch mode whose per-job renders all
either succeed or fail locally (no page-close throw after a success, all
session launches succeed within the retry budget), the returned batch result
has exactly one JobResult per submitted job — same length and the same
multiset of ids (stated as a permutation of the id lists) — and the summary
satisfies `successful + failed = total = len(batch)`. -/
theorem claim_C1 (env : Env) (batch : List BatchItem) (conc cap : ℕ)
    (hc : 0 < conc) (hcap : 0 < cap)
    (hv : validateBatch batch = none)
    (hcl : pageClosesOk env)
    (hl : launchesOk env (groupsOf batch conc cap).length) :
    ∃ r, (processBatchT env batch conc cap).2 = .ok r
      ∧ r.results.length = batch.length
      ∧ List.Perm (r.results.map (fun jr => jr.id)) (batch.map (fun it => it.id))
      ∧ r.total = batch.length
      ∧ r.successful + r.failed = r.total := by
  obtain ⟨r, h1, h2, h3, h4, h5, h6⟩ := processBatchT_ok_spec env batch conc cap hc hcap hv hcl hl
  exact ⟨r, h1, h2, h4, h5, h6⟩

/-- Witness for C1 at a concrete batch of two jobs under the trivial
environment. -/
theorem claim_C1_witness :
    validateBatch batchTwo = none
      ∧ (processBatchT envTriv batchTwo 2 2).2.isOk = true := by
  refine ⟨by decide, ?_⟩
  obtain ⟨r, hr, _⟩ := claim_C1 envTriv batchTwo 2 2 (by decide) (by decide) (by decide)
    (fun k j => rfl) (fun k hk => rfl)
  rw [hr]
  rfl

/-- C2: for a list of jobs of length `L` and `n ≥ 1`, the partitioner
allocates `n` groups, puts the job at position `i` into group `i % n`
preserving original relative order (group `k` is exactly the subsequence of
jobs at positions congruent to `k`), has an empty group exactly when `L < n`
(the empty groups are then dropped), and every surviving group's size is
`floor (L / n)` or `ceil (L / n)`. -/
theorem claim_C2 {α : Type} (jobs : List α) (n : ℕ) (hn : 1 ≤ n) :
    (distribute jobs n).length = n
    ∧ (∀ k, k < n →
        (distribute jobs n).getD k []
          = ((idxFrom 0 jobs).filter (fun p => decide (p.1 % n = k))).map Prod.snd)
    ∧ ((∃ c ∈ distribute jobs n, c = []) ↔ jobs.length < n)
    ∧ (∀ c ∈ nonEmptyChunks jobs n,
        c.length = jobs.length / n ∨ c.length = (jobs.length + n - 1) / n) := by
  have hn0 : 0 < n := hn
  refine ⟨distribute_length jobs n, fun k hk => distribute_getD jobs n hn0 k hk, ?_, ?_⟩
  · constructor
    · rintro ⟨c, hc, hce⟩
      obtain ⟨k, hk, he⟩ := (mem_distribute_iff jobs n c).mp hc
      have hlen := distribute_group_length jobs n hn0 k hk
      rw [he, hce] at hlen
      by_contra hLn
      push_neg at hLn
      have hq : 1 ≤ jobs.length / n := (Nat.one_le_div_iff hn0).mpr hLn
      simp only [List.length_nil] at hlen
      split_ifs at hlen
      all_goals omega
    · intro hLn
      refine ⟨(distribute jobs n).getD (n - 1) [], ?_, ?_⟩
      · exact (mem_distribute_iff jobs n _).mpr ⟨n - 1, by omega, rfl⟩
      · have hlen := distribute_group_length jobs n hn0 (n - 1) (by omega)
        have hq : jobs.length / n = 0 := Nat.div_eq_of_lt hLn
        have hm : jobs.length % n = jobs.length := Nat.mod_eq_of_lt hLn
        rw [hq, hm] at hlen
        have hite : ¬ (n - 1 < jobs.length) := by omega
        rw [if_neg hite] at hlen
        have hzero : ((distribute jobs n).getD (n - 1) []).length = 0 := by omega
        exact List.length_eq_zero.mp hzero
  · intro c hc
    have hmem : c ∈ distribute jobs n := List.mem_of_mem_filter hc
    obtain ⟨k, hk, he⟩ := (mem_distribute_iff jobs n c).mp hmem
    have hlen := distribute_group_length jobs n hn0 k hk
    rw [he] at hlen
    have hceil := ceil_div_eq n jobs.length hn0
    by_cases hkr : k < jobs.length % n
    · right
      rw [hceil]
      have hpos : 0 < jobs.length % n := by omega
      rw [if_pos hkr] at hlen
      rw [if_pos hpos]
      omega
    · left
      rw [if_neg hkr] at hlen
      omega

/-- Witness for C2 at the spec scenario of seven jobs and two groups. -/
theorem claim_C2_witness :
    (1 : ℕ) ≤ 2 ∧ (distribute [1, 2, 3, 4, 5, 6, 7] 2).length = 2 :=
  ⟨by decide, (claim_C2 [1, 2, 3, 4, 5, 6, 7] 2 (by decide)).1⟩

/-- C3: under the staggered policy the groups are processed strictly
sequentially: there is one chunk log per group; no delay precedes the first
group's launch (its stagger delay is 0 and it starts at time 0); and for every
later group `k + 1` a fixed 22000 ms sleep is executed before its launch, its
launch starts exactly 22000 ms after group `k`'s processing (including the
session close) ended, hence no earlier than 22000 ms after group `k`'s session
was created. -/
theorem claim_C3 (env : Env) (batch : List BatchItem) (conc cap : ℕ)
    (hv : validateBatch batch = none)
    (hl : launchesOk env (groupsOf batch conc cap).length) :
    (processBatchT env batch conc cap).1.length = (groupsOf batch conc cap).length
    ∧ (0 < (groupsOf batch conc cap).length →
        (logAt env batch conc cap 0).delayBefore = 0
        ∧ (logAt env batch conc cap 0).launchStart = 0)
    ∧ (∀ k, k + 1 < (groupsOf batch conc cap).length →
        (logAt env batch conc cap (k + 1)).delayBefore = 22000
        ∧ (logAt env batch conc cap (k + 1)).launchStart
            = (logAt env batch conc cap k).endT + 22000
        ∧ (logAt env batch conc cap k).launchEnd + 22000
            ≤ (logAt env batch conc cap (k + 1)).launchStart) := by
  have hlog := processBatchT_logs env batch conc cap hv
  have hok0 : ∀ i, i < (groupsOf batch conc cap).length →
      (launchBrowserWithRetry (env.attempts (0 + i)) 3 1000).2.isOk = true := by
    intro i hi
    rw [Nat.zero_add]
    exact hl i hi
  refine ⟨?_, ?_, ?_⟩
  · rw [hlog]
    exact runChunks_length_ok env (groupsOf batch conc cap) 0 0 hok0
  · intro hpos
    constructor
    · have h := (runChunks_log_ok env (groupsOf batch conc cap) 0 0 hok0 0 hpos).2.2.2.1
      rw [logAt, hlog]
      simpa using h
    · have h := runChunks_head_start env (groupsOf batch conc cap) 0 0 hok0 hpos
      rw [logAt, hlog]
      simpa using h
  · intro k hk1
    have hk : k < (groupsOf batch conc cap).length := by omega
    have hcons := runChunks_consec env (groupsOf batch conc cap) 0 0 hok0 k hk1
    have hlogk := runChunks_log_ok env (groupsOf batch conc cap) 0 0 hok0 k hk
    have hlogk1 := runChunks_log_ok env (groupsOf batch conc cap) 0 0 hok0 (k + 1) hk1
    refine ⟨?_, ?_, ?_⟩
    · have h := hlogk1.2.2.2.1
      rw [logAt, hlog]
      simpa using h
    · simp only [logAt, hlog]
      exact hcons
    · simp only [logAt, hlog]
      have h1 := hlogk.2.2.2.2.2
      rw [hcons]
      omega

/-- Witness for C3: with two groups, the second chunk's stagger delay is
22000 ms. -/
theorem claim_C3_witness :
    validateBatch batchTwo = none
      ∧ (logAt envTriv batchTwo 2 2 1).delayBefore = 22000 := by
  refine ⟨by decide, ?_⟩
  exact ((claim_C3 envTriv batchTwo 2 2 (by decide) (fun k hk => rfl)).2.2 0 (by decide)).1

/-- C4: the session acquirer with defaults `maxRetries = 3`,
`initialDelay = 1000`: if attempts `1..k` all fail with a rate-limit
signature and attempt `k + 1` (still within the budget) succeeds, the whole
call sleeps exactly `1000 * 2 ^ (a - 1)` ms after each failed attempt `a`
(the back-off schedule 1 s, 2 s, 4 s, ...) and returns the session of attempt
`k + 1`; moreover a successful acquisition has no effect on job outcomes: two
environments that agree on renders and page closes and both launch
successfully produce identical batch responses, regardless of how many
retries their launches needed. -/
theorem claim_C4 :
    (∀ (att : ℕ → Option String) (k : ℕ), k < 3 →
       (∀ a, 1 ≤ a → a ≤ k → ∃ m, att a = some m ∧ isRateLimitMsg m = true) →
       att (k + 1) = none →
       launchBrowserWithRetry att 3 1000
         = ((List.range k).map (fun i => 1000 * 2 ^ i), Except.ok (k + 1)))
    ∧ (∀ (env env' : Env) (batch : List BatchItem) (conc cap : ℕ),
       env.renderStage = env'.renderStage →
       env.pageClose = env'.pageClose →
       launchesOk env (groupsOf batch conc cap).length →
       launchesOk env' (groupsOf batch conc cap).length →
       (processBatchT env batch conc cap).2 = (processBatchT env' batch conc cap).2) := by
  constructor
  · intro att k hk hfail hsucc
    interval_cases k
    · simp [launchBrowserWithRetry, launchGo, hsucc]
    · obtain ⟨m1, hm1, hrl1⟩ := hfail 1 (by omega) (by omega)
      simp [launchBrowserWithRetry, launchGo, hm1, hrl1, hsucc, List.range_succ]
    · obtain ⟨m1, hm1, hrl1⟩ := hfail 1 (by omega) (by omega)
      obtain ⟨m2, hm2, hrl2⟩ := hfail 2 (by omega) (by omega)
      simp [launchBrowserWithRetry, launchGo, hm1, hrl1, hm2, hrl2, hsucc, List.range_succ]
  · intro env env' batch conc cap hre hpc hl hl'
    cases hval : validateBatch batch with
    | some e => simp [processBatchT, hval]
    | none =>
      have h1 := runChunks_results_ok env (nonEmptyChunks batch (min conc cap)) 0 0
        (fun i hi => by rw [Nat.zero_add]; exact hl i hi)
      have h2 := runChunks_results_ok env' (nonEmptyChunks batch (min conc cap)) 0 0
        (fun i hi => by rw [Nat.zero_add]; exact hl' i hi)
      have hcat := resultsCat_cong env env' hre hpc (nonEmptyChunks batch (min conc cap)) 0
      simp only [processBatchT, hval, h1, h2, hcat]

/-- Witness for C4: two rate-limited failures then success yields the 1 s and
2 s back-off sleeps and the third attempt's session. -/
theorem claim_C4_witness :
    launchBrowserWithRetry attTwoRL 3 1000 = ([1000, 2000], Except.ok 3) := by
  have hfail : ∀ a, 1 ≤ a → a ≤ 2 → ∃ m, attTwoRL a = some m ∧ isRateLimitMsg m = true := by
    intro a h1 h2
    interval_cases a
    · exact ⟨"Rate limit hit", by decide, by decide⟩
    · exact ⟨"error 429", by decide, by decide⟩
  have h := claim_C4.1 attTwoRL 2 (by decide) hfail (by decide)
  rw [h]
  decide

/-- C5 is a code bug: the claim (and the code's own comment `If not rate
limit or last attempt, throw`) says a non-rate-limited launch failure is not
retried and surfaces as a terminal failure, but the loop only throws on the
last attempt, so a non-rate-limited failure on attempt 1 is silently retried
(with no back-off sleep) and a success on attempt 2 is returned. -/
theorem claim_C5_code_bug :
    launchBrowserWithRetry attOneBoom 3 1000 = ([], Except.ok 2)
      ∧ isRateLimitMsg "Connection refused" = false := by
  constructor
  · decide
  · decide

/-- C6: within a group whose session launched, the browser is closed exactly
once; the chunk's pushed results are exactly the concatenation of the
per-item blocks, one block per item of the group (so the loop reaches every
item); a job whose render fails contributes exactly one JobResult, with
`success = false` and the error's message, and every job's block is non-empty
(every remaining job still reports); and no render failure aborts the batch:
the whole call still returns a result. -/
theorem claim_C6 (env : Env) (batch : List BatchItem) (conc cap : ℕ)
    (hv : validateBatch batch = none)
    (hl : launchesOk env (groupsOf batch conc cap).length) :
    (∀ k, k < (groupsOf batch conc cap).length →
      (logAt env batch conc cap k).closeCount = 1
      ∧ (logAt env batch conc cap k).results
          = (runItemsB env k ((groupsOf batch conc cap).getD k []) 0).flatten
      ∧ (∀ j, j < ((groupsOf batch conc cap).getD k []).length →
          (runItemsB env k ((groupsOf batch conc cap).getD k []) 0).getD j [] ≠ []
          ∧ ∀ m, env.renderStage k j
                (pdfOptionsOf (((groupsOf batch conc cap).getD k []).getD j dItem).options)
              = .error m →
            (runItemsB env k ((groupsOf batch conc cap).getD k []) 0).getD j []
              = [{ id := (((groupsOf batch conc cap).getD k []).getD j dItem).id
                 , success := false, pdf := none, error := some m }]))
    ∧ (processBatchT env batch conc cap).2.isOk = true := by
  have hlog := processBatchT_logs env batch conc cap hv
  have hok0 : ∀ i, i < (groupsOf batch conc cap).length →
      (launchBrowserWithRetry (env.attempts (0 + i)) 3 1000).2.isOk = true := by
    intro i hi
    rw [Nat.zero_add]
    exact hl i hi
  constructor
  · intro k hk
    have hlogk := runChunks_log_ok env (groupsOf batch conc cap) 0 0 hok0 k hk
    refine ⟨?_, ?_, ?_⟩
    · rw [logAt, hlog]
      exact hlogk.2.1
    · rw [logAt, hlog]
      have hres := hlogk.2.2.1
      rw [hres, runItems_eq_blocks, Nat.zero_add]
    · intro j hj
      constructor
      · rw [runItemsB_getD env k _ 0 j hj, Nat.zero_add]
        exact itemBlock_ne_nil env k j _
      · intro m hm
        rw [runItemsB_getD env k _ 0 j hj, Nat.zero_add]
        exact itemBlock_error env k j _ m hm
  · have hres := runChunks_results_ok env (nonEmptyChunks batch (min conc cap)) 0 0 hok0
    have : (processBatchT env batch conc cap).2
        = .ok { results := resultsCat env (nonEmptyChunks batch (min conc cap)) 0
              , total := (resultsCat env (nonEmptyChunks batch (min conc cap)) 0).length
              , successful := ((resultsCat env (nonEmptyChunks batch (min conc cap)) 0).filter
                  (fun r => r.success)).length
              , failed := ((resultsCat env (nonEmptyChunks batch (min conc cap)) 0).filter
                  (fun r => !r.success)).length } := by
      simp only [processBatchT, hv, hres]
    rw [this]
    rfl

/-- Witness for C6: one failing render in a group of three; the session is
still closed exactly once. -/
theorem claim_C6_witness :
    validateBatch batchThree = none
      ∧ (logAt envOneBad batchThree 1 2 0).closeCount = 1 := by
  refine ⟨by decide, ?_⟩
  exact (((claim_C6 envOneBad batchThree 1 2 (by decide) (fun k hk => rfl)).1) 0 (by decide)).1

/-- C7: a batch containing an item with a falsy (absent or empty) `html` or
`id` makes the whole `processBatch` call throw a validation error that
carries an offending item, before any session work: the chunk-log list is
empty, i.e. zero launches were even started. -/
theorem claim_C7 (env : Env) (batch : List BatchItem) (conc cap : ℕ)
    (hbad : ∃ it ∈ batch, strFalsy it.html = true ∨ strFalsy it.id = true) :
    ∃ e, processBatchT env batch conc cap = ([], .error (.validation e))
      ∧ ∃ it ∈ batch, ((e = .missingHtml it ∧ strFalsy it.html = true)
          ∨ (e = .missingId it ∧ strFalsy it.id = true)) := by
  cases hval : validateBatch batch with
  | none =>
    exfalso
    obtain ⟨it, hmem, hor⟩ := hbad
    have hgood := (validateBatch_none_iff batch).mp hval it hmem
    rcases hor with h | h
    · rw [hgood.1] at h
      exact Bool.false_ne_true h
    · rw [hgood.2] at h
      exact Bool.false_ne_true h
  | some e =>
    refine ⟨e, ?_, validateBatch_some_spec batch e hval⟩
    simp [processBatchT, hval]

/-- Witness for C7: a one-item batch with empty html fails validation with no
chunk processed. -/
theorem claim_C7_witness :
    strFalsy ({ id := some "1", html := some "", options := none } : BatchItem).html = true
      ∧ (processBatchT envTriv badBatch 2 2).1 = [] := by
  refine ⟨by decide, ?_⟩
  obtain ⟨e, he, _⟩ := claim_C7 envTriv badBatch 2 2
    ⟨{ id := some "1", html := some "", options := none }, by simp [badBatch],
      Or.inl (by decide)⟩
  rw [he]

/-- Counterexample to C8 as stated: a batch whose two items share the id
`"a"` does NOT fail validation — two sessions are created (two chunk logs)
and the call returns a normal batch response with both results carrying the
same id. -/
theorem claim_C8_counterexample :
    (processBatchT envTriv dupBatch 2 2).1.length = 2
      ∧ (processBatchT envTriv dupBatch 2 2).2
          = .ok { results :=
                    [ { id := some "a", success := true, pdf := some "PDF", error := none }
                    , { id := some "a", success := true, pdf := some "PDF", error := none } ]
                , total := 2, successful := 2, failed := 0 } := by
  constructor
  · decide
  · decide

/-- C8 amended: validation checks only that every item has a truthy `html`
and a truthy `id`; duplicate ids are not detected.  A batch whose items all
pass those presence checks — even with duplicate ids — passes validation and
is processed normally, producing one JobResult per submitted item (duplicate
ids simply appear several times among the results). -/
theorem claim_C8_amended (env : Env) (batch : List BatchItem) (conc cap : ℕ)
    (hc : 0 < conc) (hcap : 0 < cap)
    (hok : ∀ it ∈ batch, strFalsy it.html = false ∧ strFalsy it.id = false)
    (hcl : pageClosesOk env)
    (hl : launchesOk env (groupsOf batch conc cap).length) :
    validateBatch batch = none
    ∧ ∃ r, (processBatchT env batch conc cap).2 = .ok r
        ∧ r.results.length = batch.length
        ∧ List.Perm (r.results.map (fun jr => jr.id)) (batch.map (fun it => it.id)) := by
  have hv := (validateBatch_none_iff batch).mpr hok
  obtain ⟨r, h1, h2, h3, h4, h5, h6⟩ := processBatchT_ok_spec env batch conc cap hc hcap hv hcl hl
  exact ⟨hv, r, h1, h2, h4⟩

/-- Witness for the amended C8, at the very batch with duplicate ids. -/
theorem claim_C8_witness :
    validateBatch dupBatch = none
      ∧ (processBatchT envTriv dupBatch 2 2).2.isOk = true := by
  obtain ⟨hv, r, hr, _⟩ := claim_C8_amended envTriv dupBatch 2 2 (by decide) (by decide)
    (by decide) (fun k j => rfl) (fun k hk => rfl)
  refine ⟨hv, ?_⟩
  rw [hr]
  rfl

/-- Counterexample to C9 as stated: a request body whose `batch` property is
the EMPTY array (with an `html` property also present) is routed to batch
mode — the call returns an empty batch JSON — whereas single mode would have
rendered the html into a PDF. -/
theorem claim_C9_counterexample :
    handlePost envTriv bodyEmptyBatch 2 2
        = .batchRes { results := [], total := 0, successful := 0, failed := 0 }
      ∧ runSingle envTriv bodyEmptyBatch = .pdf "PDF" := by
  constructor
  · decide
  · decide

/-- C9 amended: batch mode runs if and only if `requestBody.batch` is an
array — including the empty array, which yields an empty batch response, not
a single-mode render.  In batch mode the concurrency passed down is
`requestBody.concurrency || default` and `processBatch` caps it with
`Math.min(·, cap)`, so the number of session groups never exceeds
`min (concurrency || default) cap`.  Any non-array `batch` (absent, null, or
a non-array value) falls through to the single-document path: one
acquire-render-release cycle with no partitioning. -/
theorem claim_C9_amended (env : Env) (body : ReqBody) (defC cap : ℕ) :
    (batchIsArray body.batch = false → handlePost env body defC cap = runSingle env body)
    ∧ (∀ items, body.batch = .arr items →
        handlePost env body defC cap
          = (match (processBatchT env items (concOr body.concurrency defC) cap).2 with
             | .error e => .errResp (.fromBatch e)
             | .ok r => .batchRes r)
        ∧ (groupsOf items (concOr body.concurrency defC) cap).length
            ≤ min (concOr body.concurrency defC) cap) := by
  constructor
  · intro hna
    cases hb : body.batch with
    | arr items => rw [hb] at hna; simp [batchIsArray] at hna
    | absent => simp [handlePost, hb]
    | null => simp [handlePost, hb]
    | nonArr v => simp [handlePost, hb]
  · intro items hb
    constructor
    · simp [handlePost, hb, batchTruthy, batchIsArray]
    · have h1 : (groupsOf items (concOr body.concurrency defC) cap).length
          ≤ (distribute items (min (concOr body.concurrency defC) cap)).length :=
        List.length_filter_le _ _
      rw [distribute_length] at h1
      exact h1

/-- Witness for the amended C9: a body with no `batch` property runs the
single-document path. -/
theorem claim_C9_witness :
    batchIsArray bodySingle.batch = false
      ∧ handlePost envTriv bodySingle 2 2 = runSingle envTriv bodySingle :=
  ⟨by decide, (claim_C9_amended envTriv bodySingle 2 2).1 (by decide)⟩

/-- C10: the `printBackground` actually passed to the renderer (in single
mode and for every batch item alike, both computed by `pdfOptionsOf`) is
`false` exactly when the caller supplied the literal boolean `false`; for
every other supplied value — property absent, whole options object absent,
null, the number 0, any string, or `true` — it is `true`, because the code
computes `options?.printBackground !== false`. -/
theorem claim_C10 :
    (∀ o : Option RenderOptions,
      ((pdfOptionsOf o).printBackground = false
        ↔ optField o (fun r => r.printBackground) = some (JsVal.vBool false)))
    ∧ (pdfOptionsOf none).printBackground = true
    ∧ (∀ r : RenderOptions, r.printBackground = none
        → (pdfOptionsOf (some r)).printBackground = true)
    ∧ (∀ r : RenderOptions, r.printBackground = some JsVal.vNull
        → (pdfOptionsOf (some r)).printBackground = true)
    ∧ (∀ r : RenderOptions, r.printBackground = some (JsVal.vNum 0)
        → (pdfOptionsOf (some r)).printBackground = true)
    ∧ (∀ (r : RenderOptions) (s : String), r.printBackground = some (JsVal.vStr s)
        → (pdfOptionsOf (some r)).printBackground = true)
    ∧ (∀ r : RenderOptions, r.printBackground = some (JsVal.vBool true)
        → (pdfOptionsOf (some r)).printBackground = true)
    ∧ (∀ r : RenderOptions, r.printBackground = some (JsVal.vBool false)
        → (pdfOptionsOf (some r)).printBackground = false) := by
  refine ⟨?_, rfl, ?_, ?_, ?_, ?_, ?_, ?_⟩
  · intro o
    cases o with
    | none => simp [pdfOptionsOf, optField]
    | some r =>
      simp only [pdfOptionsOf, optField]
      cases hpb : r.printBackground with
      | none => simp
      | some v =>
        cases v with
        | vBool b => cases b <;> simp
        | vNum n => simp
        | vStr s => simp
        | vNull => simp
  · intro r h; simp [pdfOptionsOf, optField, h]
  · intro r h; simp [pdfOptionsOf, optField, h]
  · intro r h; simp [pdfOptionsOf, optField, h]
  · intro r s h; simp [pdfOptionsOf, optField, h]
  · intro r h; simp [pdfOptionsOf, optField, h]
  · intro r h; simp [pdfOptionsOf, optField, h]

/-- Witness for C10: the literal boolean false turns printBackground off. -/
theorem claim_C10_witness :
    (pdfOptionsOf (some { format := none, printBackground := some (JsVal.vBool false)
                        , margin := none })).printBackground = false :=
  claim_C10.2.2.2.2.2.2.2 _ rfl
